import Mathlib

/-!
Verification development for the SurgiInject injection-orchestration engine.

Each definition below is a shallow embedding of a function of the Python
source tree (`src/engine/...`), translated statement by statement.  Strings
are Lean `String`s; Python string primitives (`lower`, `strip`, `in`,
`replace`, `title`, negative slicing) are reimplemented with Python's
semantics for the ASCII inputs the engine handles.  File-system and network
effects are passed in as explicit parameters (oracles returning
`Except`/`Option`), so every embedded function is a total, executable Lean
function.
-/

set_option maxHeartbeats 1000000

/-! ## Python string primitives -/

/-- Whitespace characters recognised by Python's `str.strip()` (ASCII range):
space, tab, newline, carriage return, vertical tab, form feed. -/
def isPyWhitespace (c : Char) : Bool :=
  c.toNat = 32 || c.toNat = 9 || c.toNat = 10 || c.toNat = 13 ||
  c.toNat = 11 || c.toNat = 12

/-- Python `s.strip()`: drop leading and trailing whitespace. -/
def pyStrip (s : String) : String :=
  String.mk ((((s.toList.dropWhile isPyWhitespace).reverse.dropWhile isPyWhitespace)).reverse)

/-- Python `len(s)`: the number of characters. -/
def pyLen (s : String) : Nat := s.toList.length

/-- Python `s[:n]` for a non-negative bound. -/
def pyTake (s : String) (n : Nat) : String := String.mk (s.toList.take n)

/-- Python `s.lower()` for ASCII text. -/
def pyLower (s : String) : String := String.mk (s.toList.map Char.toLower)

/-- `leadsWith pat l` is true when `pat` is a leading segment of `l`. -/
def leadsWith : List Char → List Char → Bool
  | [], _ => true
  | _ :: _, [] => false
  | p :: ps, c :: cs => p = c && leadsWith ps cs

/-- `containsSub pat l` is true when `pat` occurs as a contiguous segment of
`l` (Python's `pat in s`; the empty pattern always matches). -/
def containsSub (pat : List Char) : List Char → Bool
  | [] => leadsWith pat []
  | c :: cs => leadsWith pat (c :: cs) || containsSub pat cs

/-- Python `pat in s` on strings. -/
def strContains (s pat : String) : Bool := containsSub pat.toList s.toList

/-- Python `s.replace(old, new)`: replace every non-overlapping occurrence,
scanning left to right.  (The engine never calls `replace` with an empty
pattern; for the empty pattern this model returns the string unchanged.) -/
def replaceSub (pat rep : List Char) : List Char → List Char
  | [] => []
  | c :: cs =>
    if leadsWith pat (c :: cs) && !pat.isEmpty then
      rep ++ replaceSub pat rep ((c :: cs).drop pat.length)
    else
      c :: replaceSub pat rep cs
termination_by l => l.length
decreasing_by
  · simp only [List.length_drop, List.length_cons]
    rename_i hguard
    have hpat : pat ≠ [] := by
      rcases pat with _ | ⟨p, ps⟩
      · simp at hguard
      · exact List.cons_ne_nil _ _
    have : 1 ≤ pat.length := List.length_pos.mpr hpat
    omega
  · simp only [List.length_cons]
    omega

/-- Python `s.replace(old, new)` lifted to `String`. -/
def pyReplace (s old new : String) : String :=
  String.mk (replaceSub old.toList new.toList s.toList)

/-- One step of Python `str.title()`: the boolean records whether the
previous character was alphabetic. -/
def pyTitleGo : Bool → List Char → List Char
  | _, [] => []
  | prevAlpha, c :: cs =>
    if c.isAlpha then
      (if prevAlpha then c.toLower else c.toUpper) :: pyTitleGo true cs
    else
      c :: pyTitleGo false cs

/-- Python `s.title()` for ASCII text. -/
def pyTitle (s : String) : String := String.mk (pyTitleGo false s.toList)

/-- Python `content[:k]` where `k` may be negative: a negative bound counts
from the end of the string, clamping at the empty string. -/
def pySliceTo (s : String) (k : Int) : String :=
  if k < 0 then
    pyTake s (pyLen s - min (Int.toNat (-k)) (pyLen s))
  else
    pyTake s (Int.toNat k)

/-- An ASCII apostrophe, used to spell the contraction phrases of the
weak-response pattern lists. -/
def apos : String := String.mk [Char.ofNat 39]

/-! ## `src/engine/quality.py` -/

/-- `quality.py` line 29: explicit no-change indicators. -/
def weak_indicators : List String :=
  ["no change", "no changes needed", "already correct", "looks good",
   "no issues found", "cannot be improved", "nothing to fix"]

/-- `quality.py` line 50: error-message indicators. -/
def quality_error_indicators : List String :=
  ["error:", "failed to", "unable to", "cannot process", "api error",
   "timeout", "invalid request"]

/-- `quality.is_response_weak`: a response is weak when it is empty or
whitespace, contains a no-change indicator, is shorter than 50 characters
after stripping, or contains an error indicator. -/
def is_response_weak (response : String) : Bool :=
  if response = "" || pyStrip response = "" then true
  else
    let response_lower := pyLower response
    if weak_indicators.any (fun ind => strContains response_lower ind) then true
    else if pyLen (pyStrip response) < 50 then true
    else if quality_error_indicators.any (fun e => strContains response_lower e) then true
    else false

/-- `quality.get_escalation_prompt`: the enhanced prompt sent to the
escalation model (an f-string; `weak_response[:500]` is a plain slice). -/
def get_escalation_prompt (original_prompt weak_response : String) : String :=
  "\nESCALATION REQUEST - Previous response was insufficient\n\nORIGINAL PROMPT:\n"
    ++ original_prompt
    ++ "\n\nWEAK RESPONSE RECEIVED:\n"
    ++ pyTake weak_response 500
    ++ "...\n\nENHANCED REQUIREMENTS:\n- Provide comprehensive code modifications\n- Include detailed explanations for changes\n- Add error handling and edge cases\n- Ensure production-ready quality\n- Include comments explaining improvements\n\nPlease provide a significantly improved response that addresses the original requirements with higher quality and more thorough implementation.\n"

/-! ## `src/engine/response_validator.py` -/

/-- `response_validator.py` line 49: weak response patterns (three entries
contain an apostrophe, assembled via `apos`). -/
def validator_weak_patterns : List String :=
  ["none", "n/a", "null", "undefined", "error", "failed",
   "i cannot", "i" ++ apos ++ "m unable", "i don" ++ apos ++ "t know",
   "i" ++ apos ++ "m not sure",
   "no changes needed", "no modifications required",
   "the code is already", "the file is already",
   "please provide more", "need more context",
   "cannot process", "unable to process",
   "invalid input", "malformed request"]

/-- `response_validator.py` line 65: error-like indicators. -/
def validator_error_indicators : List String :=
  ["exception", "traceback", "stack trace", "error occurred",
   "failed to", "could not", "unable to", "invalid",
   "syntax error", "runtime error", "type error"]

/-- `response_validator.py` line 78: looks-like-code tokens (checked against
the raw response, not the lowered one).  The two brace entries are the
literal one-character strings for an opening and a closing curly brace. -/
def code_indicators : List String :=
  ["def ", "class ", "import ", "from ", "return ",
   "if ", "for ", "while ", "try:", "except:",
   "function ", "const ", "let ", "var ",
   "<", ">", "=", "(", ")", "\x7b", "\x7d"]

/-- `ResponseValidator.is_weak_response`: empty, shorter than 30 characters
after stripping, containing a weak pattern or error indicator, or (when
shorter than 100 characters) containing no code token. -/
def is_weak_response (response : String) : Bool :=
  if response = "" then true
  else
    let response_lower := pyLower (pyStrip response)
    if pyLen (pyStrip response) < 30 then true
    else if validator_weak_patterns.any (fun p => strContains response_lower p) then true
    else if validator_error_indicators.any (fun p => strContains response_lower p) then true
    else if pyLen (pyStrip response) < 100 then
      if code_indicators.any (fun ind => strContains response ind) then false else true
    else false

/-- One record of the append-only failure ledger
(`.surgi_failures.json`); `ResponseValidator.log_failure` appends one and
`is_duplicate_failure` matches on the `file`/`prompt`/`provider` fields
(the `reason` and timestamp fields never participate in matching). -/
structure FailEntry where
  file : String
  prompt : String
  provider : String
  reason : String
deriving DecidableEq, Repr

/-- `ResponseValidator.is_duplicate_failure`: an identical
(file, prompt, provider) failure was already recorded. -/
def is_duplicate_failure (failures : List FailEntry) (file_path prompt provider : String) : Bool :=
  failures.any (fun f => f.file == file_path && f.prompt == prompt && f.provider == provider)

/-- `response_validator.py` line 197: vague-verb substitutions. -/
def prompt_fixes : List (String × String) :=
  [("explain", "rewrite with code"),
   ("discuss", "generate implementation"),
   ("outline", "implement code for"),
   ("describe", "create code that"),
   ("analyze", "modify the code to"),
   ("review", "update the code to"),
   ("examine", "transform the code to"),
   ("consider", "implement the following")]

/-- `response_validator.py` line 215: urgency markers. -/
def urgency_phrases : List String :=
  ["IMPORTANT: ", "CRITICAL: ", "URGENT: ", "PLEASE: "]

/-- `ResponseValidator.auto_correct_prompt`: substitute vague verbs (both
lower-case and `str.title()` spellings), prepend an urgency marker for
attempts past the first when none is present, and append the
return-only-code directive from attempt 3 on. -/
def auto_correct_prompt (prompt : String) (attempt : Nat) : String :=
  let corrected := prompt_fixes.foldl
    (fun corrected bg =>
      if strContains (pyLower corrected) bg.1 then
        pyReplace (pyReplace corrected bg.1 bg.2) (pyTitle bg.1) (pyTitle bg.2)
      else corrected)
    prompt
  let corrected :=
    if 1 < attempt then
      if urgency_phrases.any (fun phrase => strContains corrected phrase) then corrected
      else "URGENT: " ++ corrected
    else corrected
  if 3 ≤ attempt then
    corrected ++ "\n\nIMPORTANT: Provide ONLY the modified code without explanations. Focus on the actual implementation."
  else corrected

/-! ## `src/engine/retry_engine.py` -/

/-- The prompt actually sent on a given attempt (`retry_engine.py` lines
60-64): the original prompt on attempt 1, the auto-corrected one later. -/
def attemptPrompt (prompt : String) (attempt : Nat) : String :=
  if 1 < attempt then auto_correct_prompt prompt attempt else prompt

/-- `RuntimeError` message raised when every attempt failed
(`retry_engine.py` line 113). -/
def exhaustMsg (maxAttempts : Nat) (file_path : String) : String :=
  "🚨 All " ++ toString maxAttempts ++ " attempts failed for " ++ file_path

/-- Inner provider loop of `RetryEngine.inject_with_retry` (lines 67-107).
`query` is the provider boundary (`query_model_func`); the triple returned
is (successful response if any, failure ledger, number of boundary calls).
A provider is skipped when the ledger already holds an identical failure;
a raising call or a weak response appends a ledger entry and moves on. -/
def tryProviders (query : String → String → Except String String)
    (file_path current_prompt : String) :
    List String → List FailEntry → Nat → Option String × List FailEntry × Nat
  | [], failures, calls => (none, failures, calls)
  | provider :: rest, failures, calls =>
    if is_duplicate_failure failures file_path current_prompt provider then
      tryProviders query file_path current_prompt rest failures calls
    else
      match query current_prompt provider with
      | Except.error e =>
        tryProviders query file_path current_prompt rest
          (failures ++ [⟨file_path, current_prompt, provider, e⟩]) (calls + 1)
      | Except.ok response =>
        if is_weak_response response then
          tryProviders query file_path current_prompt rest
            (failures ++ [⟨file_path, current_prompt, provider, "Weak response"⟩]) (calls + 1)
        else
          (some response, failures, calls + 1)

/-- Outer attempt loop of `RetryEngine.inject_with_retry` (lines 57-115),
iterating over the list of attempt numbers `[1, ..., max_attempts]`;
when the list is exhausted the `RuntimeError` is raised. -/
def injectAttempts (query : String → String → Except String String)
    (file_path prompt : String) (chain : List String) (maxAttempts : Nat) :
    List Nat → List FailEntry → Nat → Except String String × List FailEntry × Nat
  | [], failures, calls => (Except.error (exhaustMsg maxAttempts file_path), failures, calls)
  | attempt :: rest, failures, calls =>
    let current_prompt := attemptPrompt prompt attempt
    match tryProviders query file_path current_prompt chain failures calls with
    | (some response, failures2, calls2) => (Except.ok response, failures2, calls2)
    | (none, failures2, calls2) =>
      injectAttempts query file_path prompt chain maxAttempts rest failures2 calls2

/-- `RetryEngine.inject_with_retry`: cap the provider chain at
`max_providers`, then run `max_attempts` rounds over it.  The initial
failure ledger (the on-disk `.surgi_failures.json`) is a parameter. -/
def inject_with_retry (query : String → String → Except String String)
    (file_path prompt : String) (provider_chain : List String)
    (maxAttempts maxProviders : Nat) (failures : List FailEntry) :
    Except String String × List FailEntry × Nat :=
  injectAttempts query file_path prompt (provider_chain.take maxProviders) maxAttempts
    ((List.range maxAttempts).map (fun i => i + 1)) failures 0

/-! ## `src/engine/injector.py` -/

/-- `injector.compute_fingerprint`: the SHA-256 hex digest of the plain
concatenation `file_content + prompt_content`.  The digest function itself
(`hashlib.sha256(. .encode("utf-8")).hexdigest()`) is abstracted as the
parameter `digest`: every property proved below holds for an arbitrary
digest, and in particular depends only on the concatenated preimage. -/
def compute_fingerprint (digest : String → String) (file_content prompt_content : String) : String :=
  digest (file_content ++ prompt_content)

/-- One value of the JSON cache `surgi_cache.json`.  A well-formed entry is
an object `{text, tokens}` (what `get_completion` stores); `dict` keeps the
result of `.get("text")` (`none` when the key is absent) together with the
token count, and `str` covers a legacy plain-string entry, which the code
handles through its `isinstance(cached_result, dict)` checks. -/
inductive CachedVal where
  | dict (text : Option String) (tokens : Nat)
  | str (s : String)
deriving DecidableEq, Repr

/-- Python `fingerprint in cache` / `cache[fingerprint]` on the JSON map,
modelled as first-match association-list lookup. -/
def cacheLookup : List (String × CachedVal) → String → Option CachedVal
  | [], _ => none
  | kv :: rest, fp => if kv.1 = fp then some kv.2 else cacheLookup rest fp

/-- Python `cache[fingerprint] = response`: overwrite the existing binding
or append a new one. -/
def cacheInsert : List (String × CachedVal) → String → CachedVal → List (String × CachedVal)
  | [], fp, v => [(fp, v)]
  | kv :: rest, fp, v =>
    if kv.1 = fp then (fp, v) :: rest else kv :: cacheInsert rest fp v

/-- Provider loop of `handle_injection` (`injector.py` lines 363-397).
`getCompletion` is the provider boundary (`get_completion(provider,
prompt)`, returning the `{text, tokens}` pair or `None`; its own
`try/except` means it never raises).  Returns (result text, number of
boundary calls, cache after the loop).  A response with a non-empty `text`
is cached (unless `no_cache`) and returned; otherwise the next provider is
tried. -/
def handleProviders (getCompletion : String → String → Option (String × Nat))
    (prompt fingerprint : String) (no_cache : Bool) :
    List String → Nat → List (String × CachedVal) → String × Nat × List (String × CachedVal)
  | [], calls, cache =>
    ("[All AI providers failed. Please try again later or check your configuration.]", calls, cache)
  | provider :: rest, calls, cache =>
    match getCompletion provider prompt with
    | some (text, tokens) =>
      if text ≠ "" then
        (text, calls + 1,
          if no_cache then cache else cacheInsert cache fingerprint (CachedVal.dict (some text) tokens))
      else
        handleProviders getCompletion prompt fingerprint no_cache rest (calls + 1) cache
    | none => handleProviders getCompletion prompt fingerprint no_cache rest (calls + 1) cache

/-- `injector.handle_injection`: compute the fingerprint of
(file content, prompt); unless the cache is bypassed, a hit returns the
cached text (`.get("text", "[Cached response]")` for an object entry)
with zero provider-boundary calls; otherwise run the provider loop over
the providers whose API keys are configured. -/
def handle_injection (digest : String → String) (cache : List (String × CachedVal))
    (anthropic_key groq_key : Bool) (getCompletion : String → String → Option (String × Nat))
    (prompt file_content : String) (no_cache force_refresh : Bool) :
    String × Nat × List (String × CachedVal) :=
  let fingerprint := compute_fingerprint digest file_content prompt
  match (if !force_refresh && !no_cache then cacheLookup cache fingerprint else none) with
  | some (CachedVal.dict text _) => (text.getD ("[Cached response]"), 0, cache)
  | some (CachedVal.str s) => (s, 0, cache)
  | none =>
    let providers :=
      (if anthropic_key then ["anthropic"] else []) ++ (if groq_key then ["groq"] else [])
    if providers.isEmpty then
      ("[No AI providers configured. Please check your API keys.]", 0, cache)
    else
      handleProviders getCompletion prompt fingerprint no_cache providers 0 cache

/-- The collaborators `run_injection` calls, as oracles.  `build_prompt`
and `handle_injection` may raise (their exceptions reach `run_injection`'s
catch-all); `run_model` is the escalation call, whose exceptions are caught
locally.  The event emitters of `inject_logger.py` only append to an
in-memory list and log, so they are modelled as pure no-ops. -/
structure RunEnv where
  digest : String → String
  cache : List (String × CachedVal)
  buildPrompt : String → String → String → Except String String
  handleInj : String → String → Except String String
  runModel : String → Except String String

/-- Escalation step of `run_injection` (`injector.py` lines 149-167): when
the response is weak, query the escalation model; keep the escalated
response only when it is non-empty with non-blank strip; any escalation
exception keeps the original response. -/
def escalationStep (env : RunEnv) (formatted_prompt modified_code : String) : String :=
  if is_response_weak modified_code then
    match env.runModel (get_escalation_prompt formatted_prompt modified_code) with
    | Except.ok escalated =>
      if escalated ≠ "" && pyStrip escalated ≠ "" then escalated else modified_code
    | Except.error _ => modified_code
  else modified_code

/-- Body of `run_injection` (`injector.py` lines 98-184), before the
catch-all: fingerprint lookup (`force` bypasses it; an object entry falls
back to the source code when `"text"` is missing), prompt build, model
call via `handle_injection`, escalation, and the final empty-response
check that returns the original source code. -/
def runInjectionBody (env : RunEnv) (source_code prompt_template : String)
    (file_path : Option String) (force : Bool) : Except String String := do
  let fingerprint := compute_fingerprint env.digest source_code prompt_template
  match (if !force then cacheLookup env.cache fingerprint else none) with
  | some (CachedVal.dict text _) => pure (text.getD source_code)
  | some (CachedVal.str s) => pure s
  | none => do
    let fp := file_path.getD ("unknown_file")
    let formatted_prompt ← env.buildPrompt fp source_code prompt_template
    let modified_code ← env.handleInj formatted_prompt source_code
    let modified_code := escalationStep env formatted_prompt modified_code
    if modified_code = "" || pyStrip modified_code = "" then
      pure source_code
    else
      pure modified_code

/-- `injector.run_injection`: the body above wrapped in the catch-all
`except` of lines 186-196, which renders any exception as the
`"[Injection failed: ...]"` string. -/
def run_injection (env : RunEnv) (source_code prompt_template : String)
    (file_path : Option String) (force : Bool) : String :=
  match runInjectionBody env source_code prompt_template file_path force with
  | Except.ok result => result
  | Except.error e => "[Injection failed: " ++ e ++ ". Please try again later.]"

/-! ## `src/engine/dependency_tracker.py` — injection order -/

/-- `self.dependency_graph`: a Python dict mapping each analysed file to
its extracted dependency list, modelled as an association list whose keys
are distinct (dict semantics) in the order of insertion. -/
abbrev Graph : Type := List (String × List String)

/-- The analysed files: the keys of the dependency graph. -/
def graphKeys (g : Graph) : List String := g.map (fun kv => kv.1)

/-- `self.dependency_graph.get(file, [])`: the dependency list of a file
(first binding wins; a non-key has no dependencies, exactly how
`graphlib.TopologicalSorter` treats nodes that only occur as
dependencies). -/
def depsOf (g : Graph) (n : String) : List String :=
  match g.find? (fun kv => kv.1 == n) with
  | some kv => kv.2
  | none => []

/-- Every node `graphlib.TopologicalSorter` knows about: the keys together
with every file mentioned as a dependency, deduplicated. -/
def nodesOf (g : Graph) : List String :=
  (g.foldr (fun kv acc => kv.1 :: kv.2 ++ acc) []).dedup

/-- A node is ready when each of its predecessors (= dependencies) has
already left the working set. -/
def isReady (g : Graph) (remaining : List String) (n : String) : Bool :=
  (depsOf g n).all (fun p => !(remaining.contains p))

/-- Kahn-style core of `graphlib.TopologicalSorter.static_order`: emit the
batch of ready nodes, recurse on the rest; if no node is ready while nodes
remain, a cycle exists and the sort fails (the model of `CycleError`).
`fuel` bounds the number of rounds; `nodesOf g |>.length` rounds always
suffice because each successful round removes at least one node. -/
def topoLoop (g : Graph) : Nat → List String → Option (List String)
  | 0, remaining => if remaining.isEmpty then some [] else none
  | fuel + 1, remaining =>
    if remaining.isEmpty then some []
    else
      let ready := remaining.filter (isReady g remaining)
      if ready.isEmpty then none
      else
        match topoLoop g fuel (remaining.filter (fun n => !(isReady g remaining n))) with
        | some rest => some (ready ++ rest)
        | none => none

/-- `list(graphlib.TopologicalSorter(graph).static_order())`, or `none`
when the graph has a cycle (`graphlib.CycleError`). -/
def topoStaticOrder (g : Graph) : Option (List String) :=
  topoLoop g (nodesOf g).length (nodesOf g)

/-- One step of a stable ascending insertion sort on dependency counts:
the new pair goes after every already-placed pair with a count less than
or equal to its own. -/
def insertByCount (x : String × Nat) : List (String × Nat) → List (String × Nat)
  | [] => [x]
  | y :: ys => if y.2 ≤ x.2 then y :: insertByCount x ys else x :: y :: ys

/-- Python's stable `files_with_deps.sort(key=lambda x: x[1])`, modelled as
stable insertion sort (ascending by dependency count). -/
def sortByDepCount (l : List (String × Nat)) : List (String × Nat) :=
  l.foldl (fun acc x => insertByCount x acc) []

/-- `DependencyTracker._fallback_injection_order`: sort the analysed files
by ascending dependency count (Python's stable sort). -/
def fallback_injection_order (g : Graph) : List String :=
  (sortByDepCount (g.map (fun kv => (kv.1, kv.2.length)))).map (fun fc => fc.1)

/-- `DependencyTracker._calculate_injection_order`: topological sort, with
the dependency-count fallback when a cycle is detected.  (The second,
generic `except` branch of the Python code is unreachable in this pure
model and is not represented.) -/
def calculate_injection_order (g : Graph) : List String :=
  match topoStaticOrder g with
  | some order => order
  | none => fallback_injection_order g

/-! ## `src/engine/dependency_tracker.py` — context prompt -/

/-- The truncation marker appended at `dependency_tracker.py` line 435. -/
def TRUNC_MARKER : String := "\n# ... (truncated for token limit)"

/-- One entry of `context_parts`: the context file's path, the slice of its
content that was included, and whether the truncation marker was
appended. -/
structure CtxPart where
  path : String
  kept : String
  truncated : Bool
deriving DecidableEq, Repr

/-- The context-accumulation loop of `prepare_context_prompt`
(`dependency_tracker.py` lines 421-441).  `context_files` carries each
readable context file with its content (a file that fails to read is
skipped by the code and therefore simply absent here).  `total_tokens`
accumulates the rough estimate `len(content) // 4` of every file — the
estimate computed before truncation — and a file pushing the running total
past `max_tokens` is sliced to `(max_tokens - total_tokens) * 4`
characters, a bound that can be negative. -/
def buildContextParts (max_tokens : Nat) : List (String × String) → Nat → List CtxPart
  | [], _ => []
  | (path, content) :: rest, total_tokens =>
    let estimated_tokens := pyLen content / 4
    let part :=
      if max_tokens < total_tokens + estimated_tokens then
        { path := path,
          kept := pySliceTo content (((max_tokens : Int) - (total_tokens : Int)) * 4),
          truncated := true }
      else
        { path := path, kept := content, truncated := false }
    part :: buildContextParts max_tokens rest (total_tokens + estimated_tokens)

/-- Rendering of one element of `context_parts` (line 437):
`f"# Context from: {context_file}\n{content}\n"`, where `content` already
ends with the truncation marker when the file was cut. -/
def renderContextPart (p : CtxPart) : String :=
  "# Context from: " ++ p.path ++ "\n" ++ p.kept ++
    (if p.truncated then TRUNC_MARKER else "") ++ "\n"

/-- `DependencyTracker.prepare_context_prompt` (lines 398-454): build the
context parts, then the final prompt around the target file. -/
def prepare_context_prompt (file_path target_content : String)
    (context_files : List (String × String)) (max_tokens : Nat) : String :=
  let parts := buildContextParts max_tokens context_files 0
  if parts.isEmpty then
    "# Target File: " ++ file_path ++ "\n" ++ target_content
  else
    "# Context Files\n" ++ String.intercalate "\n" (parts.map renderContextPart) ++
      "\n\n# Target File: " ++ file_path ++ "\n" ++ target_content

/-! ## `src/engine/injection_queue.py` -/

/-- One queue item (`add_injection_result`'s dict, restricted to the fields
the approve/reject lifecycle reads: the generated id, the status and the
two lifecycle marks; content, provider and timestamp fields do not
influence the transitions). -/
structure QueueItem where
  id : String
  status : String
  approved : Bool
  rejected : Bool
deriving DecidableEq, Repr

/-- The three persisted queues of `InjectionQueue`. -/
structure QueueState where
  pending : List QueueItem
  approvedQ : List QueueItem
  rejectedQ : List QueueItem
deriving DecidableEq, Repr

/-- The scan of `approve_injection`'s `for` loop: find the first pending
item with the given id, mark it approved, and remove it from the pending
list (returning the marked item and the remaining list). -/
def extractApprove (injection_id : String) : List QueueItem → Option (QueueItem × List QueueItem)
  | [] => none
  | item :: rest =>
    if item.id = injection_id then
      some ({ item with approved := true }, rest)
    else
      match extractApprove injection_id rest with
      | some (found, rest2) => some (found, item :: rest2)
      | none => none

/-- The scan of `reject_injection`'s `for` loop, marking
`rejected` instead. -/
def extractReject (injection_id : String) : List QueueItem → Option (QueueItem × List QueueItem)
  | [] => none
  | item :: rest =>
    if item.id = injection_id then
      some ({ item with rejected := true }, rest)
    else
      match extractReject injection_id rest with
      | some (found, rest2) => some (found, item :: rest2)
      | none => none

/-- `InjectionQueue.approve_injection`: move the first matching pending
item into the approved queue (marking it), returning whether anything
happened.  The `.approved.surgi` side-file write and the queue save are
disk effects outside this model. -/
def approve_injection (s : QueueState) (injection_id : String) : Bool × QueueState :=
  match extractApprove injection_id s.pending with
  | some (item, pending2) =>
    (true, { s with pending := pending2, approvedQ := s.approvedQ ++ [item] })
  | none => (false, s)

/-- `InjectionQueue.reject_injection`: the symmetric transition into the
rejected queue. -/
def reject_injection (s : QueueState) (injection_id : String) : Bool × QueueState :=
  match extractReject injection_id s.pending with
  | some (item, pending2) =>
    (true, { s with pending := pending2, rejectedQ := s.rejectedQ ++ [item] })
  | none => (false, s)

/-! ## `src/engine/recursive_enhanced.py` — chunked processing -/

/-- A chunk produced by `split_file` (`file_splitter.py`); only the fields
read by `_process_file_chunks` and `_prepare_chunk_prompt`. -/
structure Chunk where
  content : String
  chunk_type : String
  name : String
  start_line : Nat
  end_line : Nat
deriving DecidableEq, Repr

/-- Python truthiness of `_inject_chunk`'s result in
`if chunk_result:` — `None` and the empty string both count as a failed
chunk. -/
def chunkOk : Option String → Bool
  | some s => s ≠ ""
  | none => false

/-- The chunk loop of `_process_file_chunks` (lines 308-326): process the
chunks in order (the injection oracle receives the 0-based chunk index,
matching `chunk_index=i`), appending each truthy result to
`processed_chunks`. -/
def collectProcessed (inject : Nat → Chunk → Option String) : Nat → List Chunk → List String
  | _, [] => []
  | i, c :: cs =>
    match inject i c with
    | some r =>
      if r ≠ "" then r :: collectProcessed inject (i + 1) cs
      else collectProcessed inject (i + 1) cs
    | none => collectProcessed inject (i + 1) cs

/-- The per-chunk outputs in their original order (meaningful when every
chunk succeeded). -/
def chunkOutputs (inject : Nat → Chunk → Option String) : Nat → List Chunk → List String
  | _, [] => []
  | i, c :: cs => ((inject i c).getD ("")) :: chunkOutputs inject (i + 1) cs

/-- `EnhancedRecursiveInjector._reassemble_chunks` (line 491): plain
`'\n\n'.join(processed_chunks)`. -/
def reassemble_chunks (processed_chunks : List String) : String :=
  String.intercalate "\n\n" processed_chunks

/-- What `_process_file_chunks` does with the file: the content written to
disk (`save_output`, only when `apply`), the content enqueued for the
dashboard, and which results list the file lands in. -/
structure ChunksOutcome where
  written : Option String
  enqueued : Option String
  recordedSuccess : Bool
  recordedFailed : Bool
deriving DecidableEq, Repr

/-- `EnhancedRecursiveInjector._process_file_chunks` (lines 295-367): the
file is reassembled, optionally written, and enqueued only when every
chunk produced a truthy result (`len(processed_chunks) == len(chunks)`);
otherwise the whole file is recorded as failed with nothing written or
enqueued. -/
def process_file_chunks (inject : Nat → Chunk → Option String)
    (chunks : List Chunk) (apply : Bool) : ChunksOutcome :=
  let processed_chunks := collectProcessed inject 0 chunks
  if processed_chunks.length = chunks.length then
    let final_content := reassemble_chunks processed_chunks
    { written := if apply then some final_content else none,
      enqueued := some final_content,
      recordedSuccess := true,
      recordedFailed := false }
  else
    { written := none, enqueued := none, recordedSuccess := false, recordedFailed := true }

/-! ## Theorems -/

/-- C5 (counterexample): the claim asserts the weakness heuristic returns
`false` on `"def f():\n    return 1"`, but both implementations return
`true`: the snippet is 21 characters after stripping, below the 50- resp.
30-character minimum-length thresholds. -/
theorem weak_heuristic_code_snippet_counterexample :
    is_response_weak ("def f():\n    return 1") = true ∧
    is_weak_response ("def f():\n    return 1") = true := by
  decide

/-- C5 (amended): the weakness heuristic returns true on the empty string,
on `"none"`, on `"xxxxxxxxxx"`, and also on `"def f():\n    return 1"`
(which falls below the minimum-length thresholds) — in both
`quality.is_response_weak` and `ResponseValidator.is_weak_response`. -/
theorem weak_heuristic_values :
    is_response_weak ("") = true ∧
    is_response_weak ("none") = true ∧
    is_response_weak ("xxxxxxxxxx") = true ∧
    is_response_weak ("def f():\n    return 1") = true ∧
    is_weak_response ("") = true ∧
    is_weak_response ("none") = true ∧
    is_weak_response ("xxxxxxxxxx") = true ∧
    is_weak_response ("def f():\n    return 1") = true := by
  decide

/-- C9: `compute_fingerprint` hashes the plain concatenation of file
content and instruction, so any two pairs with equal concatenations get
the same fingerprint — for any digest function — and are indistinguishable
to every fingerprint cache lookup. -/
theorem compute_fingerprint_concat_collision (digest : String → String)
    (c₁ p₁ c₂ p₂ : String) (h : c₁ ++ p₁ = c₂ ++ p₂) :
    compute_fingerprint digest c₁ p₁ = compute_fingerprint digest c₂ p₂ ∧
    ∀ cache : List (String × CachedVal),
      cacheLookup cache (compute_fingerprint digest c₁ p₁) =
        cacheLookup cache (compute_fingerprint digest c₂ p₂) := by
  constructor
  · unfold compute_fingerprint
    rw [h]
  · intro cache
    unfold compute_fingerprint
    rw [h]

/-- C9 (witness): the pairs `("ab", "c")` and `("a", "bc")` from the claim
collide, instantiated with the identity digest. -/
theorem compute_fingerprint_concat_collision_witness :
    (("ab" : String) ++ ("c") = ("a" : String) ++ ("bc")) ∧
    compute_fingerprint (fun s => s) ("ab") ("c") =
      compute_fingerprint (fun s => s) ("a") ("bc") := by
  refine ⟨by decide, ?_⟩
  exact (compute_fingerprint_concat_collision (fun s => s) ("ab") ("c") ("a") ("bc")
    (by decide)).1

/-- C3: when the fingerprint of (file content, prompt) has a cached success
entry (an object with a `text` field), `handle_injection` with
`force_refresh = false` (and caching enabled) returns the cached text,
makes zero provider-boundary calls, and leaves the cache unchanged. -/
theorem cached_fingerprint_skips_provider_boundary
    (digest : String → String) (cache : List (String × CachedVal))
    (anthropic_key groq_key : Bool)
    (getCompletion : String → String → Option (String × Nat))
    (prompt file_content text : String) (tokens : Nat)
    (hcache : cacheLookup cache (compute_fingerprint digest file_content prompt) =
      some (CachedVal.dict (some text) tokens)) :
    handle_injection digest cache anthropic_key groq_key getCompletion
      prompt file_content false false = (text, 0, cache) := by
  unfold handle_injection
  simp only [Bool.not_false, Bool.and_self, if_true, hcache, Option.getD_some]

/-- C3 (witness): a concrete cache hit returns the cached text with zero
boundary calls even though a live provider is available. -/
theorem cached_fingerprint_skips_provider_boundary_witness :
    handle_injection (fun s => s) [(("abcT"), CachedVal.dict (some ("cached!")) 5)]
      true true (fun _ _ => some (("live"), 1)) ("T") ("abc") false false =
      (("cached!"), 0, [(("abcT"), CachedVal.dict (some ("cached!")) 5)]) := by
  exact cached_fingerprint_skips_provider_boundary (fun s => s)
    [(("abcT"), CachedVal.dict (some ("cached!")) 5)] true true
    (fun _ _ => some (("live"), 1)) ("T") ("abc") ("cached!") 5 (by decide)

/-- C7: evaluation of the context-budget loop at the failing input
(`max_tokens = 1`, an 8-character file followed by a 40-character file).
The claim (and the function's own docstring) promise at most
`4 * max_tokens = 4` characters of included context, with an over-budget
file cut to the remaining budget; instead the loop keeps 4 characters of
the first file and then — because `total_tokens` was advanced by the
untruncated estimate and the Python slice bound `(max_tokens -
total_tokens) * 4` has gone negative — keeps 36 of the second file's 40
characters, 40 characters of context in total. -/
theorem prepare_context_prompt_exceeds_budget :
    (buildContextParts 1
        [(("f1"), ("aaaaaaaa")),
         (("f2"), ("bbbbbbbbbbbbbbbbbbbbbbbbbbbbbbbbbbbbbbbb"))] 0).map
        (fun p => pyLen p.kept) = [4, 36] ∧
    4 * 1 <
      ((buildContextParts 1
        [(("f1"), ("aaaaaaaa")),
         (("f2"), ("bbbbbbbbbbbbbbbbbbbbbbbbbbbbbbbbbbbbbbbb"))] 0).map
        (fun p => pyLen p.kept)).sum := by
  decide

/-- The chunk loop never collects more results than there are chunks. -/
theorem collectProcessed_length_le (inject : Nat → Chunk → Option String) :
    ∀ (cs : List Chunk) (i : Nat), (collectProcessed inject i cs).length ≤ cs.length := by
  intro cs
  induction cs with
  | nil => intro i; simp [collectProcessed]
  | cons c cs ih =>
    intro i
    simp only [collectProcessed]
    cases h : inject i c with
    | none => exact Nat.le_succ_of_le (ih (i + 1))
    | some r =>
      by_cases hr : r = ""
      · simp only [hr, ne_eq, not_true_eq_false, if_false]
        exact Nat.le_succ_of_le (ih (i + 1))
      · simp only [ne_eq, hr, not_false_eq_true, if_true, List.length_cons]
        exact Nat.succ_le_succ (ih (i + 1))

/-- When every chunk result is truthy, the collected list is exactly the
per-chunk outputs in order. -/
theorem collectProcessed_all_ok (inject : Nat → Chunk → Option String) :
    ∀ (cs : List Chunk) (i : Nat),
      (∀ j (hj : j < cs.length), chunkOk (inject (i + j) (cs.get ⟨j, hj⟩)) = true) →
      collectProcessed inject i cs = chunkOutputs inject i cs := by
  intro cs
  induction cs with
  | nil => intro i _; rfl
  | cons c cs ih =>
    intro i hall
    have h0 := hall 0 (Nat.succ_pos _)
    simp only [List.get] at h0
    rw [Nat.add_zero] at h0
    simp only [collectProcessed, chunkOutputs]
    cases h : inject i c with
    | none => rw [h] at h0; simp [chunkOk] at h0
    | some r =>
      rw [h] at h0
      simp only [chunkOk, ne_eq] at h0
      have hr : r ≠ "" := by simpa using h0
      simp only [ne_eq, hr, not_false_eq_true, if_true, Option.getD_some]
      congr 1
      apply ih
      intro j hj
      have := hall (j + 1) (Nat.succ_lt_succ hj)
      simpa [Nat.add_assoc, Nat.add_comm 1 j] using this

/-- A single falsy chunk result makes the collected list strictly
shorter than the chunk list. -/
theorem collectProcessed_lt_of_fail (inject : Nat → Chunk → Option String) :
    ∀ (cs : List Chunk) (i : Nat),
      (∃ j, ∃ hj : j < cs.length, chunkOk (inject (i + j) (cs.get ⟨j, hj⟩)) = false) →
      (collectProcessed inject i cs).length < cs.length := by
  intro cs
  induction cs with
  | nil => intro i ⟨j, hj, _⟩; exact absurd hj (Nat.not_lt_zero j)
  | cons c cs ih =>
    intro i ⟨j, hj, hfail⟩
    cases j with
    | zero =>
      simp only [List.get] at hfail
      rw [Nat.add_zero] at hfail
      simp only [collectProcessed]
      cases h : inject i c with
      | none =>
        exact Nat.lt_succ_of_le (collectProcessed_length_le inject cs (i + 1))
      | some r =>
        rw [h] at hfail
        simp only [chunkOk, ne_eq] at hfail
        have hr : r = "" := by simpa using hfail
        simp only [ne_eq, hr, not_true_eq_false, if_false]
        exact Nat.lt_succ_of_le (collectProcessed_length_le inject cs (i + 1))
    | succ j =>
      have hj2 : j < cs.length := Nat.lt_of_succ_lt_succ hj
      have hrec : (collectProcessed inject (i + 1) cs).length < cs.length := by
        apply ih (i + 1)
        refine ⟨j, hj2, ?_⟩
        have hidx : i + 1 + j = i + (j + 1) := by omega
        rw [hidx]
        simpa using hfail
      simp only [collectProcessed]
      cases h : inject i c with
      | none => exact Nat.lt_succ_of_lt hrec
      | some r =>
        by_cases hr : r = ""
        · simp only [hr, ne_eq, not_true_eq_false, if_false]
          exact Nat.lt_succ_of_lt hrec
        · simp only [ne_eq, hr, not_false_eq_true, if_true, List.length_cons]
          exact Nat.succ_lt_succ hrec

/-- There is one output per chunk. -/
theorem chunkOutputs_length (inject : Nat → Chunk → Option String) :
    ∀ (cs : List Chunk) (i : Nat), (chunkOutputs inject i cs).length = cs.length := by
  intro cs
  induction cs with
  | nil => intro i; rfl
  | cons c cs ih => intro i; simp [chunkOutputs, ih (i + 1)]

/-- C8: if any chunk of a split file fails to produce a (truthy) result,
the whole file is recorded as failed and nothing is written or enqueued;
reassembled content is produced exactly when every chunk succeeded, by
joining the chunk outputs in their original order. -/
theorem chunk_failure_no_partial_write (inject : Nat → Chunk → Option String)
    (chunks : List Chunk) (apply : Bool) :
    ((∃ j, ∃ hj : j < chunks.length, chunkOk (inject j (chunks.get ⟨j, hj⟩)) = false) →
      process_file_chunks inject chunks apply =
        { written := none, enqueued := none, recordedSuccess := false, recordedFailed := true }) ∧
    ((∀ j (hj : j < chunks.length), chunkOk (inject j (chunks.get ⟨j, hj⟩)) = true) →
      process_file_chunks inject chunks apply =
        { written := if apply then some (reassemble_chunks (chunkOutputs inject 0 chunks)) else none,
          enqueued := some (reassemble_chunks (chunkOutputs inject 0 chunks)),
          recordedSuccess := true,
          recordedFailed := false }) := by
  constructor
  · intro ⟨j, hj, hfail⟩
    have hlt : (collectProcessed inject 0 chunks).length < chunks.length := by
      apply collectProcessed_lt_of_fail
      exact ⟨j, hj, by simpa using hfail⟩
    unfold process_file_chunks
    rw [if_neg (Nat.ne_of_lt hlt)]
  · intro hall
    have heq : collectProcessed inject 0 chunks = chunkOutputs inject 0 chunks := by
      apply collectProcessed_all_ok
      intro j hj
      simpa using hall j hj
    unfold process_file_chunks
    rw [heq, if_pos (chunkOutputs_length inject chunks 0)]

/-- C8 (witness): two chunks, the second of which fails — the file is
marked failed and nothing is written or enqueued even with `apply`. -/
theorem chunk_failure_no_partial_write_witness :
    process_file_chunks
      (fun i _ => if i = 0 then some ("patched A") else none)
      [{ content := ("A"), chunk_type := ("function"), name := ("c0"),
         start_line := 1, end_line := 10 },
       { content := ("B"), chunk_type := ("function"), name := ("c1"),
         start_line := 11, end_line := 20 }] true =
      { written := none, enqueued := none, recordedSuccess := false, recordedFailed := true } := by
  exact (chunk_failure_no_partial_write
    (fun i _ => if i = 0 then some ("patched A") else none)
    [{ content := ("A"), chunk_type := ("function"), name := ("c0"),
       start_line := 1, end_line := 10 },
     { content := ("B"), chunk_type := ("function"), name := ("c1"),
       start_line := 11, end_line := 20 }] true).1
    ⟨1, by decide, by decide⟩

/-- A successful `approve_injection` scan splits the pending list around
the first item carrying the id, marks that item approved, and removes it. -/
theorem extractApprove_split (tid : String) :
    ∀ (l : List QueueItem) (it : QueueItem) (rest : List QueueItem),
      extractApprove tid l = some (it, rest) →
      ∃ l₁ orig l₂, l = l₁ ++ orig :: l₂ ∧ (∀ x ∈ l₁, x.id ≠ tid) ∧ orig.id = tid ∧
        it = { orig with approved := true } ∧ rest = l₁ ++ l₂ := by
  intro l
  induction l with
  | nil => intro it rest h; simp [extractApprove] at h
  | cons item l ih =>
    intro it rest h
    simp only [extractApprove] at h
    by_cases hid : item.id = tid
    · rw [if_pos hid] at h
      obtain ⟨h1, h2⟩ := Prod.mk.injEq .. ▸ (Option.some.injEq .. ▸ h)
      exact ⟨[], item, l, by simp, by simp, hid, h1.symm, by simp [h2.symm]⟩
    · rw [if_neg hid] at h
      cases hrec : extractApprove tid l with
      | none => rw [hrec] at h; simp at h
      | some pr =>
        rw [hrec] at h
        obtain ⟨found, rest2⟩ := pr
        simp only [Option.some.injEq, Prod.mk.injEq] at h
        obtain ⟨hfound, hrest⟩ := h
        obtain ⟨l₁, orig, l₂, hl, hl₁, horig, hit, hrest2⟩ := ih found rest2 hrec
        refine ⟨item :: l₁, orig, l₂, by simp [hl], ?_, horig, hfound ▸ hit, ?_⟩
        · intro x hx
          rcases List.mem_cons.mp hx with hx | hx
          · rw [hx]; exact hid
          · exact hl₁ x hx
        · rw [← hrest, hrest2]; simp

/-- The `reject_injection` scan splits the pending list the same way,
marking the item rejected. -/
theorem extractReject_split (tid : String) :
    ∀ (l : List QueueItem) (it : QueueItem) (rest : List QueueItem),
      extractReject tid l = some (it, rest) →
      ∃ l₁ orig l₂, l = l₁ ++ orig :: l₂ ∧ (∀ x ∈ l₁, x.id ≠ tid) ∧ orig.id = tid ∧
        it = { orig with rejected := true } ∧ rest = l₁ ++ l₂ := by
  intro l
  induction l with
  | nil => intro it rest h; simp [extractReject] at h
  | cons item l ih =>
    intro it rest h
    simp only [extractReject] at h
    by_cases hid : item.id = tid
    · rw [if_pos hid] at h
      obtain ⟨h1, h2⟩ := Prod.mk.injEq .. ▸ (Option.some.injEq .. ▸ h)
      exact ⟨[], item, l, by simp, by simp, hid, h1.symm, by simp [h2.symm]⟩
    · rw [if_neg hid] at h
      cases hrec : extractReject tid l with
      | none => rw [hrec] at h; simp at h
      | some pr =>
        rw [hrec] at h
        obtain ⟨found, rest2⟩ := pr
        simp only [Option.some.injEq, Prod.mk.injEq] at h
        obtain ⟨hfound, hrest⟩ := h
        obtain ⟨l₁, orig, l₂, hl, hl₁, horig, hit, hrest2⟩ := ih found rest2 hrec
        refine ⟨item :: l₁, orig, l₂, by simp [hl], ?_, horig, hfound ▸ hit, ?_⟩
        · intro x hx
          rcases List.mem_cons.mp hx with hx | hx
          · rw [hx]; exact hid
          · exact hl₁ x hx
        · rw [← hrest, hrest2]; simp

/-- Scanning for an id that no pending item carries finds nothing. -/
theorem extractReject_eq_none (tid : String) :
    ∀ (l : List QueueItem), (∀ x ∈ l, x.id ≠ tid) → extractReject tid l = none := by
  intro l
  induction l with
  | nil => intro _; rfl
  | cons item l ih =>
    intro hall
    simp only [extractReject]
    rw [if_neg (hall item (List.mem_cons_self item l)),
      ih (fun x hx => hall x (List.mem_cons_of_mem item hx))]

/-- Scanning for an id that no pending item carries finds nothing. -/
theorem extractApprove_eq_none (tid : String) :
    ∀ (l : List QueueItem), (∀ x ∈ l, x.id ≠ tid) → extractApprove tid l = none := by
  intro l
  induction l with
  | nil => intro _; rfl
  | cons item l ih =>
    intro hall
    simp only [extractApprove]
    rw [if_neg (hall item (List.mem_cons_self item l)),
      ih (fun x hx => hall x (List.mem_cons_of_mem item hx))]

/-- When at most one pending item carries the id and one such item is
split out, the remainder carries the id nowhere. -/
theorem filter_id_unique {l₁ l₂ : List QueueItem} {orig : QueueItem} (tid : String)
    (hl : ((l₁ ++ orig :: l₂).filter (fun x => x.id == tid)).length ≤ 1)
    (horig : orig.id = tid) :
    ∀ x ∈ l₁ ++ l₂, x.id ≠ tid := by
  rw [List.filter_append, List.filter_cons] at hl
  simp only [horig, beq_self_eq_true, if_true] at hl
  rw [List.length_append, List.length_cons] at hl
  have h1 : (l₁.filter (fun x => x.id == tid)).length = 0 := by omega
  have h2 : (l₂.filter (fun x => x.id == tid)).length = 0 := by omega
  intro x hx hxid
  rcases List.mem_append.mp hx with hx | hx
  · have hmem : x ∈ l₁.filter (fun x => x.id == tid) :=
      List.mem_filter.mpr ⟨hx, by simp [hxid]⟩
    rw [List.length_eq_zero.mp h1] at hmem
    exact absurd hmem (List.not_mem_nil x)
  · have hmem : x ∈ l₂.filter (fun x => x.id == tid) :=
      List.mem_filter.mpr ⟨hx, by simp [hxid]⟩
    rw [List.length_eq_zero.mp h2] at hmem
    exact absurd hmem (List.not_mem_nil x)

/-- C4: for a queue id carried by at most one pending item (the generated
ids are unique) whose pending items carry neither lifecycle mark (how
`add_injection_result` creates them), at most one of approve/reject ever
succeeds: after a successful `approve`, a `reject` of the same id returns
false and changes nothing, and the item sits in the approved queue marked
`approved` and not `rejected`; symmetrically for a successful `reject`. -/
theorem approve_then_reject (s : QueueState) (tid : String)
    (huniq : (s.pending.filter (fun x => x.id == tid)).length ≤ 1)
    (hclean : ∀ x ∈ s.pending, x.approved = false ∧ x.rejected = false) :
    ((approve_injection s tid).1 = true →
      reject_injection (approve_injection s tid).2 tid = (false, (approve_injection s tid).2) ∧
      ∃ it ∈ (approve_injection s tid).2.approvedQ,
        it.id = tid ∧ it.approved = true ∧ it.rejected = false) ∧
    ((reject_injection s tid).1 = true →
      approve_injection (reject_injection s tid).2 tid = (false, (reject_injection s tid).2) ∧
      ∃ it ∈ (reject_injection s tid).2.rejectedQ,
        it.id = tid ∧ it.rejected = true ∧ it.approved = false) := by
  constructor
  · intro happ
    cases hex : extractApprove tid s.pending with
    | none => simp [approve_injection, hex] at happ
    | some pr =>
      obtain ⟨item, pend2⟩ := pr
      obtain ⟨l₁, orig, l₂, hl, _, horig, hit, hrest⟩ :=
        extractApprove_split tid s.pending item pend2 hex
      have hnone : extractReject tid pend2 = none := by
        apply extractReject_eq_none
        rw [hrest]
        exact filter_id_unique tid (hl ▸ huniq) horig
      have hstate : (approve_injection s tid).2 =
          { s with pending := pend2, approvedQ := s.approvedQ ++ [item] } := by
        simp [approve_injection, hex]
      constructor
      · rw [hstate]
        simp [reject_injection, hnone]
      · rw [hstate]
        refine ⟨item, by simp, ?_, ?_, ?_⟩
        · rw [hit]; exact horig
        · rw [hit]
        · rw [hit]
          simp only
          exact (hclean orig (hl ▸ List.mem_append_right l₁ (List.mem_cons_self orig l₂))).2
  · intro hrej
    cases hex : extractReject tid s.pending with
    | none => simp [reject_injection, hex] at hrej
    | some pr =>
      obtain ⟨item, pend2⟩ := pr
      obtain ⟨l₁, orig, l₂, hl, _, horig, hit, hrest⟩ :=
        extractReject_split tid s.pending item pend2 hex
      have hnone : extractApprove tid pend2 = none := by
        apply extractApprove_eq_none
        rw [hrest]
        exact filter_id_unique tid (hl ▸ huniq) horig
      have hstate : (reject_injection s tid).2 =
          { s with pending := pend2, rejectedQ := s.rejectedQ ++ [item] } := by
        simp [reject_injection, hex]
      constructor
      · rw [hstate]
        simp [approve_injection, hnone]
      · rw [hstate]
        refine ⟨item, by simp, ?_, ?_, ?_⟩
        · rw [hit]; exact horig
        · rw [hit]
        · rw [hit]
          simp only
          exact (hclean orig (hl ▸ List.mem_append_right l₁ (List.mem_cons_self orig l₂))).1

/-- A one-item queue used to instantiate the approve/reject theorem. -/
def sampleQueueState : QueueState :=
  { pending := [{ id := ("a1b2c3d4"), status := ("success"), approved := false, rejected := false }],
    approvedQ := [], rejectedQ := [] }

/-- C4 (witness): on a concrete queue, after `approve` succeeds the
`reject` of the same id returns false and leaves the state unchanged. -/
theorem approve_then_reject_witness :
    reject_injection (approve_injection sampleQueueState ("a1b2c3d4")).2 ("a1b2c3d4") =
      (false, (approve_injection sampleQueueState ("a1b2c3d4")).2) := by
  exact ((approve_then_reject sampleQueueState ("a1b2c3d4")
    (by decide) (by decide)).1 (by decide)).1

/-- Duplicate detection over a split ledger. -/
theorem is_duplicate_failure_append (l₁ l₂ : List FailEntry) (f c p : String) :
    is_duplicate_failure (l₁ ++ l₂) f c p =
      (is_duplicate_failure l₁ f c p || is_duplicate_failure l₂ f c p) := by
  simp [is_duplicate_failure, List.any_append]

/-- A prompt no ledger entry carries is never a duplicate failure. -/
theorem is_duplicate_failure_of_fresh_prompt (led : List FailEntry) (f c p : String)
    (h : ∀ en ∈ led, en.prompt ≠ c) : is_duplicate_failure led f c p = false := by
  simp only [is_duplicate_failure, List.any_eq_false]
  intro en hen
  simp only [Bool.and_eq_true, beq_iff_eq]
  rintro ⟨⟨_, hp⟩, _⟩
  exact h en hen hp

/-- When every boundary call raises, the provider loop finds no response,
makes at most one call per provider, and only appends ledger entries for
the current file and prompt. -/
theorem tryProviders_allfail (query : String → String → Except String String)
    (file cur : String) (hfail : ∀ c p, ∃ e, query c p = Except.error e) :
    ∀ (chain : List String) (led : List FailEntry) (cnt : Nat),
      ∃ led₂ cnt₂,
        tryProviders query file cur chain led cnt = (none, led₂, cnt₂) ∧
        cnt ≤ cnt₂ ∧ cnt₂ ≤ cnt + chain.length ∧
        (∀ en ∈ led₂, en ∈ led ∨ (en.file = file ∧ en.prompt = cur)) := by
  intro chain
  induction chain with
  | nil =>
    intro led cnt
    exact ⟨led, cnt, rfl, Nat.le_refl _, by simp, fun en hen => Or.inl hen⟩
  | cons p ps ih =>
    intro led cnt
    simp only [tryProviders]
    by_cases hdup : is_duplicate_failure led file cur p = true
    · rw [if_pos hdup]
      obtain ⟨led₂, cnt₂, heq, h1, h2, h3⟩ := ih led cnt
      refine ⟨led₂, cnt₂, heq, h1, ?_, h3⟩
      simp only [List.length_cons]
      omega
    · rw [if_neg hdup]
      obtain ⟨e, he⟩ := hfail cur p
      rw [he]
      obtain ⟨led₂, cnt₂, heq, h1, h2, h3⟩ :=
        ih (led ++ [⟨file, cur, p, e⟩]) (cnt + 1)
      refine ⟨led₂, cnt₂, heq, by omega, ?_, ?_⟩
      · simp only [List.length_cons]
        omega
      · intro en hen
        rcases h3 en hen with hold | hnew
        · rcases List.mem_append.mp hold with hl | hr
          · exact Or.inl hl
          · simp only [List.mem_singleton] at hr
            exact Or.inr (by rw [hr]; exact ⟨rfl, rfl⟩)
        · exact Or.inr hnew

/-- With distinct providers none of which is already recorded for the
current prompt, the all-raising provider loop makes exactly one boundary
call per provider. -/
theorem tryProviders_allfail_exact (query : String → String → Except String String)
    (file cur : String) (hfail : ∀ c p, ∃ e, query c p = Except.error e) :
    ∀ (chain : List String) (led : List FailEntry) (cnt : Nat),
      chain.Nodup →
      (∀ p ∈ chain, is_duplicate_failure led file cur p = false) →
      ∃ led₂,
        tryProviders query file cur chain led cnt = (none, led₂, cnt + chain.length) ∧
        (∀ en ∈ led₂, en ∈ led ∨ (en.file = file ∧ en.prompt = cur)) := by
  intro chain
  induction chain with
  | nil =>
    intro led cnt _ _
    exact ⟨led, rfl, fun en hen => Or.inl hen⟩
  | cons p ps ih =>
    intro led cnt hnodup hnodupled
    simp only [tryProviders]
    rw [if_neg (by simp [hnodupled p (List.mem_cons_self p ps)])]
    obtain ⟨e, he⟩ := hfail cur p
    rw [he]
    have hfresh : ∀ q ∈ ps,
        is_duplicate_failure (led ++ [⟨file, cur, p, e⟩]) file cur q = false := by
      intro q hq
      rw [is_duplicate_failure_append, hnodupled q (List.mem_cons_of_mem p hq)]
      simp only [Bool.false_or, is_duplicate_failure, List.any_cons, List.any_nil,
        Bool.or_false, beq_self_eq_true, Bool.true_and]
      exact beq_eq_false_iff_ne.mpr
        (fun hpq => (List.nodup_cons.mp hnodup).1 (hpq ▸ hq))
    obtain ⟨led₂, heq, hled₂⟩ := ih (led ++ [⟨file, cur, p, e⟩]) (cnt + 1)
      (List.nodup_cons.mp hnodup).2 hfresh
    refine ⟨led₂, ?_, ?_⟩
    · have harith : cnt + (p :: ps).length = cnt + 1 + ps.length := by
        simp only [List.length_cons]
        omega
      rw [harith]
      exact heq
    · intro en hen
      rcases hled₂ en hen with hold | hnew
      · rcases List.mem_append.mp hold with hl | hr
        · exact Or.inl hl
        · simp only [List.mem_singleton] at hr
          exact Or.inr (by rw [hr]; exact ⟨rfl, rfl⟩)
      · exact Or.inr hnew

/-- When every boundary call raises, the attempt loop ends in the
all-attempts-failed error after at most one call per attempt and
provider. -/
theorem injectAttempts_allfail (query : String → String → Except String String)
    (file prompt : String) (chain : List String) (maxAtt : Nat)
    (hfail : ∀ c p, ∃ e, query c p = Except.error e) :
    ∀ (attempts : List Nat) (led : List FailEntry) (cnt : Nat),
      ∃ led₂ cnt₂,
        injectAttempts query file prompt chain maxAtt attempts led cnt =
          (Except.error (exhaustMsg maxAtt file), led₂, cnt₂) ∧
        cnt ≤ cnt₂ ∧ cnt₂ ≤ cnt + attempts.length * chain.length ∧
        (∀ en ∈ led₂, en ∈ led ∨ en.prompt ∈ attempts.map (attemptPrompt prompt)) := by
  intro attempts
  induction attempts with
  | nil =>
    intro led cnt
    exact ⟨led, cnt, rfl, Nat.le_refl _, by simp, fun en hen => Or.inl hen⟩
  | cons a rest ih =>
    intro led cnt
    obtain ⟨led₁, cnt₁, heq₁, hle₁, hub₁, hmem₁⟩ :=
      tryProviders_allfail query file (attemptPrompt prompt a) hfail chain led cnt
    obtain ⟨led₂, cnt₂, heq₂, hle₂, hub₂, hmem₂⟩ := ih led₁ cnt₁
    refine ⟨led₂, cnt₂, ?_, Nat.le_trans hle₁ hle₂, ?_, ?_⟩
    · show (match tryProviders query file (attemptPrompt prompt a) chain led cnt with
        | (some response, failures2, calls2) => (Except.ok response, failures2, calls2)
        | (none, failures2, calls2) =>
          injectAttempts query file prompt chain maxAtt rest failures2 calls2) =
        (Except.error (exhaustMsg maxAtt file), led₂, cnt₂)
      rw [heq₁]
      exact heq₂
    · have hmul : (a :: rest).length * chain.length =
          rest.length * chain.length + chain.length := by
        simp [List.length_cons, Nat.succ_mul]
      omega
    · intro en hen
      rcases hmem₂ en hen with h₁ | h₂
      · rcases hmem₁ en h₁ with hold | hcur
        · exact Or.inl hold
        · exact Or.inr (by simp [hcur.2])
      · exact Or.inr (List.mem_cons_of_mem _ h₂)

/-- With distinct providers, pairwise-distinct per-attempt prompts and a
ledger free of those prompts, the all-raising attempt loop makes exactly
one boundary call per attempt and provider. -/
theorem injectAttempts_allfail_exact (query : String → String → Except String String)
    (file prompt : String) (chain : List String) (maxAtt : Nat)
    (hfail : ∀ c p, ∃ e, query c p = Except.error e) (hchain : chain.Nodup) :
    ∀ (attempts : List Nat) (led : List FailEntry) (cnt : Nat),
      (attempts.map (attemptPrompt prompt)).Nodup →
      (∀ en ∈ led, en.prompt ∉ attempts.map (attemptPrompt prompt)) →
      ∃ led₂,
        injectAttempts query file prompt chain maxAtt attempts led cnt =
          (Except.error (exhaustMsg maxAtt file), led₂,
            cnt + attempts.length * chain.length) ∧
        (∀ en ∈ led₂, en ∈ led ∨ en.prompt ∈ attempts.map (attemptPrompt prompt)) := by
  intro attempts
  induction attempts with
  | nil =>
    intro led cnt _ _
    exact ⟨led, by simp only [List.length_nil, Nat.zero_mul, Nat.add_zero]; rfl,
      fun en hen => Or.inl hen⟩
  | cons a rest ih =>
    intro led cnt hnodup hled
    rw [List.map_cons] at hnodup
    have hnodup2 := List.nodup_cons.mp hnodup
    have hfresh : ∀ p ∈ chain,
        is_duplicate_failure led file (attemptPrompt prompt a) p = false := by
      intro p _
      apply is_duplicate_failure_of_fresh_prompt
      intro en hen hcur
      exact hled en hen (by simp [hcur])
    obtain ⟨led₁, heq₁, hmem₁⟩ :=
      tryProviders_allfail_exact query file (attemptPrompt prompt a) hfail chain led cnt
        hchain hfresh
    have hcurnot : attemptPrompt prompt a ∉ rest.map (attemptPrompt prompt) :=
      hnodup2.1
    have hled₁ : ∀ en ∈ led₁, en.prompt ∉ rest.map (attemptPrompt prompt) := by
      intro en hen
      rcases hmem₁ en hen with hold | hcur
      · intro hmem
        exact hled en hold (List.mem_cons_of_mem _ hmem)
      · rw [hcur.2]
        exact hcurnot
    obtain ⟨led₂, heq₂, hmem₂⟩ := ih led₁ (cnt + chain.length) hnodup2.2 hled₁
    refine ⟨led₂, ?_, ?_⟩
    · show (match tryProviders query file (attemptPrompt prompt a) chain led cnt with
        | (some response, failures2, calls2) => (Except.ok response, failures2, calls2)
        | (none, failures2, calls2) =>
          injectAttempts query file prompt chain maxAtt rest failures2 calls2) =
        (Except.error (exhaustMsg maxAtt file), led₂,
          cnt + (a :: rest).length * chain.length)
      rw [heq₁]
      have harith : cnt + (a :: rest).length * chain.length =
          cnt + chain.length + rest.length * chain.length := by
        simp only [List.length_cons, Nat.succ_mul]
        omega
      rw [harith]
      exact heq₂
    · intro en hen
      rcases hmem₂ en hen with h₁ | h₂
      · rcases hmem₁ en h₁ with hold | hcur
        · exact Or.inl hold
        · exact Or.inr (by simp [hcur.2])
      · exact Or.inr (List.mem_cons_of_mem _ h₂)

/-- C2 (amended): with a provider chain whose every call raises,
`inject_with_retry` terminates by raising the all-attempts-failed
`RuntimeError` after **at most** `max_attempts * n` provider-boundary
calls (`n` the capped chain length); the count is exactly
`max_attempts * n` when the capped chain has no repeated provider and the
per-attempt prompts (original and auto-corrected) are pairwise distinct,
starting from an empty failure ledger.  (The claim's unconditional exact
count fails: duplicate-failure suppression can skip boundary calls when an
auto-corrected prompt repeats an earlier attempt's prompt.) -/
theorem inject_with_retry_exhausts (query : String → String → Except String String)
    (file prompt : String) (provider_chain : List String)
    (maxAttempts maxProviders : Nat)
    (hfail : ∀ c p, ∃ e, query c p = Except.error e) :
    (inject_with_retry query file prompt provider_chain maxAttempts maxProviders []).1 =
      Except.error (exhaustMsg maxAttempts file) ∧
    (inject_with_retry query file prompt provider_chain maxAttempts maxProviders []).2.2 ≤
      maxAttempts * (provider_chain.take maxProviders).length ∧
    ((provider_chain.take maxProviders).Nodup →
      (((List.range maxAttempts).map (fun i => i + 1)).map (attemptPrompt prompt)).Nodup →
      (inject_with_retry query file prompt provider_chain maxAttempts maxProviders []).2.2 =
        maxAttempts * (provider_chain.take maxProviders).length) := by
  obtain ⟨led₂, cnt₂, heq, hlo, hub, hmem⟩ :=
    injectAttempts_allfail query file prompt (provider_chain.take maxProviders) maxAttempts
      hfail ((List.range maxAttempts).map (fun i => i + 1)) [] 0
  have hlen : ((List.range maxAttempts).map (fun i => i + 1)).length = maxAttempts := by
    simp
  rw [hlen, Nat.zero_add] at hub
  refine ⟨?_, ?_, ?_⟩
  · unfold inject_with_retry
    rw [heq]
  · unfold inject_with_retry
    rw [heq]
    exact hub
  · intro hchain hprompts
    obtain ⟨led₃, heq₃, _⟩ :=
      injectAttempts_allfail_exact query file prompt (provider_chain.take maxProviders)
        maxAttempts hfail hchain ((List.range maxAttempts).map (fun i => i + 1)) [] 0
        hprompts (by intro en hen; exact absurd hen (List.not_mem_nil en))
    rw [hlen, Nat.zero_add] at heq₃
    unfold inject_with_retry
    rw [heq₃]

/-- C2 (counterexample) helper: the always-raising provider boundary. -/
def alwaysError : String → String → Except String String :=
  fun _ _ => Except.error ("boom")

/-- C2 (counterexample): for the prompt `"IMPORTANT: x"` (which
`auto_correct_prompt` leaves unchanged on attempt 2), one always-raising
provider and `max_attempts = 2`, the engine makes 1 boundary call, not
`max_attempts * len(chain) = 2`: attempt 2 is suppressed as a duplicate
failure. -/
theorem inject_with_retry_exact_count_counterexample :
    (inject_with_retry alwaysError ("f.py") ("IMPORTANT: x") [("p")] 2 3 []).2.2 = 1 ∧
    2 * (([("p")] : List String).take 3).length = 2 := by
  constructor
  · rfl
  · rfl

/-- C2 (witness): with two distinct providers, the fresh prompt
`"do it"` and `max_attempts = 2`, the engine raises the exhaustion error
after exactly `2 * 2 = 4` boundary calls. -/
theorem inject_with_retry_exhausts_witness :
    (inject_with_retry alwaysError ("f.py") ("do it") [("a"), ("b")] 2 3 []).1 =
      Except.error (exhaustMsg 2 ("f.py")) ∧
    (inject_with_retry alwaysError ("f.py") ("do it") [("a"), ("b")] 2 3 []).2.2 =
      2 * (([("a"), ("b")] : List String).take 3).length := by
  refine ⟨(inject_with_retry_exhausts alwaysError ("f.py") ("do it") [("a"), ("b")] 2 3
    (fun c p => ⟨("boom"), rfl⟩)).1, ?_⟩
  exact (inject_with_retry_exhausts alwaysError ("f.py") ("do it") [("a"), ("b")] 2 3
    (fun c p => ⟨("boom"), rfl⟩)).2.2 (by decide) (by decide)

/-- `List.contains` agrees with membership for strings. -/
theorem list_contains_iff {l : List String} {a : String} : l.contains a = true ↔ a ∈ l := by
  simp [List.contains]

/-- Membership in the flattened key/dependency list of a graph. -/
theorem mem_nodesOf_aux {x : String} :
    ∀ (g : Graph),
      x ∈ g.foldr (fun kv acc => kv.1 :: kv.2 ++ acc) [] ↔ ∃ kv ∈ g, x = kv.1 ∨ x ∈ kv.2 := by
  intro g
  induction g with
  | nil => simp
  | cons kv g ih =>
    constructor
    · intro h
      rw [List.foldr_cons] at h
      rcases List.mem_cons.mp h with h | h
      · exact ⟨kv, List.mem_cons_self kv g, Or.inl h⟩
      · rcases List.mem_append.mp h with h | h
        · exact ⟨kv, List.mem_cons_self kv g, Or.inr h⟩
        · obtain ⟨kv2, hkv2, h2⟩ := ih.mp h
          exact ⟨kv2, List.mem_cons_of_mem kv hkv2, h2⟩
    · rintro ⟨kv2, hkv2, h2⟩
      rw [List.foldr_cons]
      rcases List.mem_cons.mp hkv2 with heq | hmem
      · subst heq
        rcases h2 with h2 | h2
        · exact List.mem_cons.mpr (Or.inl h2)
        · exact List.mem_cons.mpr (Or.inr (List.mem_append.mpr (Or.inl h2)))
      · exact List.mem_cons.mpr
          (Or.inr (List.mem_append.mpr (Or.inr (ih.mpr ⟨kv2, hmem, h2⟩))))

/-- The node set of the sorter holds exactly the keys and the mentioned
dependencies. -/
theorem mem_nodesOf {g : Graph} {x : String} :
    x ∈ nodesOf g ↔ ∃ kv ∈ g, x = kv.1 ∨ x ∈ kv.2 := by
  unfold nodesOf
  rw [List.mem_dedup]
  exact mem_nodesOf_aux g

/-- A dependency looked up through `depsOf` really is listed in the
graph. -/
theorem mem_depsOf {g : Graph} {a b : String} (h : b ∈ depsOf g a) :
    ∃ kv ∈ g, kv.1 = a ∧ b ∈ kv.2 := by
  unfold depsOf at h
  cases hf : g.find? (fun kv => kv.1 == a) with
  | none => rw [hf] at h; exact absurd h (List.not_mem_nil b)
  | some kv =>
    rw [hf] at h
    refine ⟨kv, List.mem_of_find?_eq_some hf, ?_, h⟩
    have hbeq := List.find?_some hf
    simpa using hbeq

/-- Soundness of the Kahn loop: a successful sort is a permutation of the
working set in which every dependency still in the working set is emitted
strictly before its dependent. -/
theorem topoLoop_sound (g : Graph) :
    ∀ (fuel : Nat) (remaining out : List String),
      topoLoop g fuel remaining = some out →
      List.Perm out remaining ∧
      ∀ a b, b ∈ depsOf g a → b ∈ remaining → a ∈ out →
        ∃ l₁ l₂, out = l₁ ++ l₂ ∧ b ∈ l₁ ∧ a ∈ l₂ := by
  intro fuel
  induction fuel with
  | zero =>
    intro remaining out h
    simp only [topoLoop] at h
    by_cases hrem : remaining.isEmpty
    · rw [if_pos hrem] at h
      obtain rfl : ([] : List String) = out := Option.some.injEq .. ▸ h
      rw [List.isEmpty_iff.mp hrem]
      exact ⟨List.Perm.refl [], fun a b _ _ ha => absurd ha (List.not_mem_nil a)⟩
    · rw [if_neg hrem] at h
      exact absurd h (by simp)
  | succ fuel ih =>
    intro remaining out h
    simp only [topoLoop] at h
    by_cases hrem : remaining.isEmpty
    · rw [if_pos hrem] at h
      obtain rfl : ([] : List String) = out := Option.some.injEq .. ▸ h
      rw [List.isEmpty_iff.mp hrem]
      exact ⟨List.Perm.refl [], fun a b _ _ ha => absurd ha (List.not_mem_nil a)⟩
    · rw [if_neg hrem] at h
      by_cases hready : (remaining.filter (isReady g remaining)).isEmpty
      · rw [if_pos hready] at h
        exact absurd h (by simp)
      · rw [if_neg hready] at h
        cases hrec : topoLoop g fuel (remaining.filter (fun n => !(isReady g remaining n))) with
        | none => rw [hrec] at h; exact absurd h (by simp)
        | some rest =>
          rw [hrec] at h
          obtain rfl : remaining.filter (isReady g remaining) ++ rest = out :=
            Option.some.injEq .. ▸ h
          obtain ⟨ihperm, ihbefore⟩ := ih _ rest hrec
          constructor
          · exact List.Perm.trans
              (List.Perm.append_left (remaining.filter (isReady g remaining)) ihperm)
              (List.filter_append_perm (isReady g remaining) remaining)
          · intro a b hdep hbrem haout
            rcases List.mem_append.mp haout with haready | harest
            · exfalso
              have hrdy : isReady g remaining a = true := (List.mem_filter.mp haready).2
              have hall := List.all_eq_true.mp hrdy b hdep
              rw [list_contains_iff.mpr hbrem] at hall
              simp at hall
            · by_cases hbready : b ∈ remaining.filter (isReady g remaining)
              · exact ⟨remaining.filter (isReady g remaining), rest, rfl, hbready, harest⟩
              · have hbrem2 : b ∈ remaining.filter (fun n => !(isReady g remaining n)) := by
                  rw [List.mem_filter]
                  refine ⟨hbrem, ?_⟩
                  by_cases hb : isReady g remaining b = true
                  · exact absurd (List.mem_filter.mpr ⟨hbrem, hb⟩) hbready
                  · simp only [Bool.not_eq_true] at hb
                    rw [hb]
                    rfl
                obtain ⟨r₁, r₂, hsplit, hbr₁, har₂⟩ := ihbefore a b hdep hbrem2 harest
                exact ⟨remaining.filter (isReady g remaining) ++ r₁, r₂,
                  by rw [hsplit, List.append_assoc], List.mem_append_right _ hbr₁, har₂⟩

/-- Filtering out a present element strictly shrinks a list. -/
theorem filter_length_lt {p : String → Bool} :
    ∀ {l : List String} {a : String}, a ∈ l → p a = false → (l.filter p).length < l.length := by
  intro l
  induction l with
  | nil => intro a ha _; exact absurd ha (List.not_mem_nil a)
  | cons x l ih =>
    intro a ha hpa
    rcases List.mem_cons.mp ha with heq | hmem
    · subst heq
      rw [List.filter_cons, hpa]
      exact Nat.lt_succ_of_le (List.length_filter_le p l)
    · rw [List.filter_cons]
      cases hx : p x
      · exact Nat.lt_succ_of_lt (ih hmem hpa)
      · simpa using Nat.succ_lt_succ (ih hmem hpa)

/-- Completeness of the Kahn loop: when every nonempty subset of the
sorter's nodes has a member all of whose dependencies lie outside the
subset (no cycle), the loop succeeds given enough fuel. -/
theorem topoLoop_complete (g : Graph)
    (hacyc : ∀ R ∈ (nodesOf g).sublists, R ≠ [] → ∃ n ∈ R, ∀ p ∈ depsOf g n, p ∉ R) :
    ∀ (fuel : Nat) (remaining : List String),
      remaining.length ≤ fuel → (∀ x ∈ remaining, x ∈ nodesOf g) →
      ∃ out, topoLoop g fuel remaining = some out := by
  intro fuel
  induction fuel with
  | zero =>
    intro remaining hlen _
    have hnil : remaining = [] := List.length_eq_zero.mp (Nat.le_zero.mp hlen)
    subst hnil
    exact ⟨[], rfl⟩
  | succ fuel ih =>
    intro remaining hlen hsub
    by_cases hrem : remaining.isEmpty
    · exact ⟨[], by simp only [topoLoop]; rw [if_pos hrem]⟩
    · have hne : remaining ≠ [] := fun h => hrem (by rw [h]; rfl)
      obtain ⟨r, hr⟩ := List.exists_mem_of_ne_nil remaining hne
      have hRsub : (nodesOf g).filter (fun x => remaining.contains x) ∈ (nodesOf g).sublists :=
        List.mem_sublists.mpr (List.filter_sublist (nodesOf g))
      have hRne : (nodesOf g).filter (fun x => remaining.contains x) ≠ [] := by
        intro hnil
        have hmem : r ∈ (nodesOf g).filter (fun x => remaining.contains x) :=
          List.mem_filter.mpr ⟨hsub r hr, list_contains_iff.mpr hr⟩
        rw [hnil] at hmem
        exact absurd hmem (List.not_mem_nil r)
      obtain ⟨n, hnR, hnp⟩ := hacyc _ hRsub hRne
      have hnrem : n ∈ remaining := list_contains_iff.mp (List.mem_filter.mp hnR).2
      have hnready : isReady g remaining n = true := by
        unfold isReady
        rw [List.all_eq_true]
        intro p hp
        by_cases hprem : p ∈ remaining
        · exact absurd (List.mem_filter.mpr ⟨hsub p hprem, list_contains_iff.mpr hprem⟩)
            (hnp p hp)
        · simp only [Bool.not_eq_true']
          cases hc : remaining.contains p
          · rfl
          · exact absurd (list_contains_iff.mp hc) hprem
      have hready : ¬(remaining.filter (isReady g remaining)).isEmpty := by
        intro hempty
        have hmem : n ∈ remaining.filter (isReady g remaining) :=
          List.mem_filter.mpr ⟨hnrem, hnready⟩
        rw [List.isEmpty_iff.mp hempty] at hmem
        exact absurd hmem (List.not_mem_nil n)
      have hlt : (remaining.filter (fun x => !(isReady g remaining x))).length <
          remaining.length :=
        filter_length_lt hnrem (by rw [hnready]; rfl)
      obtain ⟨rest, hrest⟩ := ih (remaining.filter (fun x => !(isReady g remaining x)))
        (by omega)
        (fun x hx => hsub x (List.mem_filter.mp hx).1)
      refine ⟨remaining.filter (isReady g remaining) ++ rest, ?_⟩
      simp only [topoLoop]
      rw [if_neg hrem, if_neg hready, hrest]

/-- A set of nodes each of which has a dependency inside the set can never
be emitted, so the Kahn loop reports a cycle. -/
theorem topoLoop_none_of_cycle (g : Graph) (C : List String) (hCne : C ≠ [])
    (hCdeps : ∀ c ∈ C, ∃ p ∈ depsOf g c, p ∈ C) :
    ∀ (fuel : Nat) (remaining : List String),
      (∀ c ∈ C, c ∈ remaining) → topoLoop g fuel remaining = none := by
  intro fuel
  induction fuel with
  | zero =>
    intro remaining hCrem
    obtain ⟨c, hc⟩ := List.exists_mem_of_ne_nil C hCne
    have hne : ¬remaining.isEmpty := by
      intro hempty
      have hmem := hCrem c hc
      rw [List.isEmpty_iff.mp hempty] at hmem
      exact absurd hmem (List.not_mem_nil c)
    simp only [topoLoop]
    rw [if_neg hne]
  | succ fuel ih =>
    intro remaining hCrem
    obtain ⟨c, hc⟩ := List.exists_mem_of_ne_nil C hCne
    have hrem : ¬remaining.isEmpty = true := by
      intro hempty
      have hmem := hCrem c hc
      rw [List.isEmpty_iff.mp hempty] at hmem
      exact absurd hmem (List.not_mem_nil c)
    have hCnotready : ∀ c2 ∈ C, isReady g remaining c2 = false := by
      intro c2 hc2
      obtain ⟨p, hp, hpC⟩ := hCdeps c2 hc2
      unfold isReady
      rw [List.all_eq_false]
      exact ⟨p, hp, by rw [list_contains_iff.mpr (hCrem p hpC)]; simp⟩
    have hCrem2 : ∀ c2 ∈ C, c2 ∈ remaining.filter (fun n => !(isReady g remaining n)) := by
      intro c2 hc2
      exact List.mem_filter.mpr ⟨hCrem c2 hc2, by rw [hCnotready c2 hc2]; rfl⟩
    simp only [topoLoop]
    rw [if_neg hrem]
    by_cases hready : (remaining.filter (isReady g remaining)).isEmpty
    · rw [if_pos hready]
    · rw [if_neg hready, ih _ hCrem2]

/-- Inserting into the count-sorted list is a permutation of consing. -/
theorem insertByCount_perm (x : String × Nat) :
    ∀ (l : List (String × Nat)), List.Perm (insertByCount x l) (x :: l) := by
  intro l
  induction l with
  | nil => exact List.Perm.refl _
  | cons y ys ih =>
    simp only [insertByCount]
    by_cases hy : y.2 ≤ x.2
    · rw [if_pos hy]
      exact List.Perm.trans (List.Perm.cons y ih) (List.Perm.swap x y ys)
    · rw [if_neg hy]

/-- The insertion-sort fold permutes its input onto the accumulator. -/
theorem sortByDepCount_perm_aux :
    ∀ (l acc : List (String × Nat)),
      List.Perm (l.foldl (fun acc x => insertByCount x acc) acc) (acc ++ l) := by
  intro l
  induction l with
  | nil => intro acc; simp
  | cons x l ih =>
    intro acc
    have h1 := ih (insertByCount x acc)
    have h2 : List.Perm (insertByCount x acc ++ l) ((x :: acc) ++ l) :=
      (insertByCount_perm x acc).append_right l
    have h3 : List.Perm ((x :: acc) ++ l) (acc ++ x :: l) := by
      simpa using List.perm_middle.symm
    exact (h1.trans h2).trans h3

/-- The stable dependency-count sort is a permutation of its input. -/
theorem sortByDepCount_perm (l : List (String × Nat)) :
    List.Perm (sortByDepCount l) l := by
  simpa using sortByDepCount_perm_aux l []

/-- C1: for an acyclic dependency graph (every nonempty subset of the
sorter's nodes contains a file none of whose dependencies lie in the
subset), the topological sort succeeds, the injection order is a
permutation of the sorter's nodes, and for every edge `a -> b` (file `a`
lists `b` among its dependencies) `b` appears strictly before `a` in the
injection order. -/
theorem injection_order_topological (g : Graph)
    (hacyc : ∀ R ∈ (nodesOf g).sublists, R ≠ [] → ∃ n ∈ R, ∀ p ∈ depsOf g n, p ∉ R) :
    topoStaticOrder g ≠ none ∧
    List.Perm (calculate_injection_order g) (nodesOf g) ∧
    ∀ a b, b ∈ depsOf g a →
      ∃ l₁ l₂, calculate_injection_order g = l₁ ++ l₂ ∧ b ∈ l₁ ∧ a ∈ l₂ := by
  obtain ⟨out, hout⟩ := topoLoop_complete g hacyc (nodesOf g).length (nodesOf g)
    (Nat.le_refl _) (fun x hx => hx)
  have hcalc : calculate_injection_order g = out := by
    unfold calculate_injection_order topoStaticOrder
    rw [hout]
  obtain ⟨hperm, hbefore⟩ := topoLoop_sound g (nodesOf g).length (nodesOf g) out hout
  refine ⟨?_, ?_, ?_⟩
  · unfold topoStaticOrder
    rw [hout]
    simp
  · rw [hcalc]
    exact hperm
  · intro a b hdep
    obtain ⟨kv, hkv, hkva, hbkv⟩ := mem_depsOf hdep
    have hb_nodes : b ∈ nodesOf g := mem_nodesOf.mpr ⟨kv, hkv, Or.inr hbkv⟩
    have ha_out : a ∈ out :=
      hperm.mem_iff.mpr (mem_nodesOf.mpr ⟨kv, hkv, Or.inl hkva.symm⟩)
    obtain ⟨l₁, l₂, hsplit, hb, ha⟩ := hbefore a b hdep hb_nodes ha_out
    exact ⟨l₁, l₂, hcalc ▸ hsplit, hb, ha⟩

/-- C6: for a graph with a cycle (a nonempty set of nodes each with a
dependency inside the set) and distinct keys, computing the injection
order does not raise: the topological sort's `CycleError` is caught, the
ascending-dependency-count fallback is returned, and that order is a
duplicate-free permutation of the analysed files. -/
theorem cycle_fallback_total (g : Graph)
    (hkeys : (graphKeys g).Nodup)
    (hcycle : ∃ C : List String, C ≠ [] ∧ (∀ c ∈ C, c ∈ nodesOf g) ∧
      ∀ c ∈ C, ∃ p ∈ depsOf g c, p ∈ C) :
    calculate_injection_order g = fallback_injection_order g ∧
    List.Perm (calculate_injection_order g) (graphKeys g) ∧
    (calculate_injection_order g).Nodup := by
  obtain ⟨C, hCne, hCnodes, hCdeps⟩ := hcycle
  have hnone : topoStaticOrder g = none := by
    unfold topoStaticOrder
    exact topoLoop_none_of_cycle g C hCne hCdeps (nodesOf g).length (nodesOf g) hCnodes
  have hcalc : calculate_injection_order g = fallback_injection_order g := by
    unfold calculate_injection_order
    rw [hnone]
  have hperm : List.Perm (fallback_injection_order g) (graphKeys g) := by
    have h2 := (sortByDepCount_perm (g.map (fun kv => (kv.1, kv.2.length)))).map
      (fun fc : String × Nat => fc.1)
    rw [List.map_map] at h2
    exact h2
  exact ⟨hcalc, hcalc ▸ hperm, hcalc ▸ (hperm.symm.nodup hkeys)⟩

/-- A two-file acyclic graph (`a.py` imports `b.py`) instantiating C1. -/
def acyclicSample : Graph := [(("a.py"), [("b.py")]), (("b.py"), [])]

/-- C1 (witness): on the concrete acyclic graph, the injection order puts
the dependency `b.py` strictly before its dependent `a.py`. -/
theorem injection_order_topological_witness :
    ∃ l₁ l₂, calculate_injection_order acyclicSample = l₁ ++ l₂ ∧
      ("b.py") ∈ l₁ ∧ ("a.py") ∈ l₂ := by
  exact (injection_order_topological acyclicSample (by decide)).2.2
    ("a.py") ("b.py") (by decide)

/-- A two-file cyclic graph (`a.py` and `b.py` import each other)
instantiating C6. -/
def cyclicSample : Graph := [(("a.py"), [("b.py")]), (("b.py"), [("a.py")])]

/-- C6 (witness): on the concrete cyclic graph, the injection order is the
dependency-count fallback, which lists both files exactly once. -/
theorem cycle_fallback_total_witness :
    calculate_injection_order cyclicSample = fallback_injection_order cyclicSample ∧
    calculate_injection_order cyclicSample = [("a.py"), ("b.py")] := by
  refine ⟨(cycle_fallback_total cyclicSample (by decide)
    ⟨[("a.py"), ("b.py")], by decide, by decide, by decide⟩).1, by decide⟩

/-- Reduction of a successful `Except` bind. -/
theorem except_bind_ok {α β : Type} (a : α) (f : α → Except String β) :
    (Except.ok a : Except String α) >>= f = f a := rfl

/-- C10: `run_injection` is total at its public interface.  Whenever the
body raises (any collaborator exception), the catch-all returns the
`"[Injection failed: ...]"` string — for every environment and input — and
on the non-cached path, when the model's final response (after the
escalation step) is empty or whitespace-only, the original source code is
returned unchanged. -/
theorem run_injection_total_spec (env : RunEnv) (source_code prompt_template : String)
    (file_path : Option String) (force : Bool)
    (formatted_prompt modified_code : String)
    (hmiss : (if !force then
        cacheLookup env.cache
          (compute_fingerprint env.digest source_code prompt_template)
      else none) = none)
    (hbp : env.buildPrompt (file_path.getD ("unknown_file")) source_code prompt_template =
      Except.ok formatted_prompt)
    (hhi : env.handleInj formatted_prompt source_code = Except.ok modified_code)
    (hempty : pyStrip (escalationStep env formatted_prompt modified_code) = "") :
    run_injection env source_code prompt_template file_path force = source_code ∧
    ∀ (env₂ : RunEnv) (s t : String) (f : Option String) (b : Bool) (e : String),
      runInjectionBody env₂ s t f b = Except.error e →
      run_injection env₂ s t f b = "[Injection failed: " ++ e ++ ". Please try again later.]" := by
  constructor
  · have hbody : runInjectionBody env source_code prompt_template file_path force =
        Except.ok source_code := by
      unfold runInjectionBody
      dsimp only
      rw [hmiss, hbp, except_bind_ok, hhi, except_bind_ok]
      simp [hempty]
      rfl
    unfold run_injection
    rw [hbody]
  · intro env₂ s t f b e herr
    unfold run_injection
    rw [herr]

/-- An environment for the C10 witness: empty cache, prompt build
succeeding, the model returning a whitespace-only response, and the
escalation model raising. -/
def runEnvSample : RunEnv :=
  { digest := fun s => s,
    cache := [],
    buildPrompt := fun _ _ _ => Except.ok ("P"),
    handleInj := fun _ _ => Except.ok ("   "),
    runModel := fun _ => Except.error ("down") }

/-- C10 (witness): with a whitespace-only model response and a failing
escalation model, `run_injection` returns the original source code
unchanged. -/
theorem run_injection_total_spec_witness :
    run_injection runEnvSample ("def f(): pass") ("add docs") none false =
      ("def f(): pass") := by
  exact (run_injection_total_spec runEnvSample ("def f(): pass") ("add docs") none false
    ("P") ("   ") rfl rfl rfl (by decide)).1
